import Mathlib

/-!
Shallow embedding of the clidle economy engine (src/main.rs).

The Rust `f64` balance (`code_lines`) is modelled as `ℚ` (exact rational
arithmetic); the `u64` item cost as `ℕ`; the saturating `as u64` cast of
`f64::floor` as `Int.toNat ∘ Int.floor`.  The `HashMap<usize, u64>` of owned
items is modelled as an association list with the hash-map `entry` update
semantics; iteration order is irrelevant because the rational sum is
commutative.  Fallible or panicking code paths (`unwrap`, `todo!`) are
modelled with `Option`.
-/

namespace Clidle

/-- `Item` from the source: `cps` (code per second), unit `cost`, `id`,
interaction `name` and display `long_name`. -/
structure Item where
  cps : ℚ
  cost : ℕ
  id : ℕ
  name : String
  long_name : String
deriving DecidableEq

/-- `InputMode` from the source. -/
inductive InputMode
  | Buy
  | Sell
  | Normal
deriving DecidableEq

/-- `ClidleError` from the source. -/
inductive ClidleError
  | BuyingItemNotKnown (s : String)
deriving DecidableEq

/-- `App` from the source.  `error : Option ClidleError` stands for the
`Result<(), ClidleError>` field (`none` = `Ok(())`). -/
structure App where
  input : String
  input_mode : InputMode
  owned_items : List (ℕ × ℕ)
  code_lines : ℚ
  items_index : List Item
  error : Option ClidleError
deriving DecidableEq

/-- The id-assignment loop of `App::new`:
`items_index.iter_mut().enumerate().for_each(|(id, item)| item.id = id)`. -/
def setIdsFrom : ℕ → List Item → List Item
  | _, [] => []
  | i, it :: rest => { it with id := i } :: setIdsFrom (i + 1) rest

/-- `App::new`, parameterised by the deserialized contents of `items.json`
(the catalog loader is external to the engine). -/
def App.new (items : List Item) : App :=
  { input := ""
    input_mode := InputMode.Normal
    owned_items := []
    code_lines := 0
    items_index := setIdsFrom 0 items
    error := none }

/-- The `for` loop body of `App::update`: sequentially accumulate
`code_lines += item_count as f64 * item_type.cps`, failing (`none`) where the
source would panic on `self.items_index.get(*item_id).unwrap()`. -/
def tickFold (items : List Item) : ℚ → List (ℕ × ℕ) → Option ℚ
  | acc, [] => some acc
  | acc, (id, c) :: rest =>
    match items.get? id with
    | none => none
    | some it => tickFold items (acc + (c : ℚ) * it.cps) rest

/-- `App::update` (the per-tick production update). -/
def App.update (app : App) : Option App :=
  (tickFold app.items_index app.code_lines app.owned_items).map
    (fun cl => { app with code_lines := cl })

/-- `self.code_lines.floor() as u64` — Rust's `as` cast from `f64` to `u64`
saturates below at 0, hence `Int.toNat`. -/
def floorU64 (q : ℚ) : ℕ := (⌊q⌋).toNat

/-- `items_index.iter().enumerate().find(|(_, i)| i.name == item)`. -/
def findItemAux (s : String) : ℕ → List Item → Option (ℕ × Item)
  | _, [] => none
  | i, it :: rest => if it.name = s then some (i, it) else findItemAux s (i + 1) rest

/-- First `(index, item)` of the catalog whose `name` equals `s`. -/
def findItem (items : List Item) (s : String) : Option (ℕ × Item) :=
  findItemAux s 0 items

/-- `owned_items.entry(item_id).and_modify(|e| *e += count).or_insert(count)`. -/
def addOwned (l : List (ℕ × ℕ)) (k v : ℕ) : List (ℕ × ℕ) :=
  if l.any (fun p => p.1 = k) then
    l.map (fun p => if p.1 = k then (p.1, p.2 + v) else p)
  else
    l ++ [(k, v)]

/-- Owned count of item `k` (0 when absent, as for a `HashMap`). -/
def countOf : List (ℕ × ℕ) → ℕ → ℕ
  | [], _ => 0
  | p :: t, k => if p.1 = k then p.2 else countOf t k

/-- `buy_item` from the source: resolve the name, then buy one unit when
`item_type.cost * count < app.code_lines.floor() as u64` (with `count = 1`).
Returns the updated `App` and the `Result` (`none` = `Ok(())`). -/
def buy_item (app : App) (item : String) : App × Option ClidleError :=
  match findItem app.items_index item with
  | none => (app, some (ClidleError.BuyingItemNotKnown item))
  | some (item_id, item_type) =>
    let count : ℕ := 1
    if item_type.cost * count < floorU64 app.code_lines then
      ({ app with
          code_lines := app.code_lines - ((item_type.cost * count : ℕ) : ℚ)
          owned_items := addOwned app.owned_items item_id count }, none)
    else
      (app, none)

/-- The key events the source's `handle_input` distinguishes
(`KeyCode::Char`, `Backspace`, `Enter`, `Esc`; `Other` stands for every other
event). -/
inductive KeyEvent
  | Char (c : Char)
  | Backspace
  | Enter
  | Esc
  | Other
deriving DecidableEq

/-- `GameState` from the source. -/
inductive GameState
  | BuyItem (s : String)
  | Noop
  | Quit
deriving DecidableEq

/-- `handle_input` from the source.  `none` models the `todo!()` panic of the
`InputMode::Sell` arm. -/
def handle_input (app : App) (key : KeyEvent) : Option (App × GameState) :=
  match app.input_mode with
  | InputMode.Normal =>
    match key with
    | KeyEvent.Char c =>
      if c = 'b' then some ({ app with input_mode := InputMode.Buy }, GameState.Noop)
      else if c = 'c' then some ({ app with code_lines := app.code_lines + 1 }, GameState.Noop)
      else if c = 's' then some ({ app with input_mode := InputMode.Sell }, GameState.Noop)
      else if c = 'q' then some (app, GameState.Quit)
      else some (app, GameState.Noop)
    | _ => some (app, GameState.Noop)
  | InputMode.Buy =>
    match key with
    | KeyEvent.Char c => some ({ app with input := app.input.push c }, GameState.Noop)
    | KeyEvent.Backspace =>
      some ({ app with input := String.mk app.input.data.dropLast }, GameState.Noop)
    | KeyEvent.Enter => some ({ app with input := "" }, GameState.BuyItem app.input)
    | KeyEvent.Esc => some ({ app with input_mode := InputMode.Normal }, GameState.Noop)
    | KeyEvent.Other => some (app, GameState.Noop)
  | InputMode.Sell => none

/-- One key event processed by the `run_app` loop: `handle_input` followed by
the `GameState` dispatch (`app.error = buy_item(&mut app, item_string)` on
`BuyItem`). -/
def processEvent (app : App) (k : KeyEvent) : Option App :=
  match handle_input app k with
  | none => none
  | some (a, GameState.BuyItem s) =>
    let r := buy_item a s
    some { r.1 with error := r.2 }
  | some (a, GameState.Noop) => some a
  | some (a, GameState.Quit) => some a

/-- A sequence of key events processed by the loop. -/
def applyEvents (app : App) : List KeyEvent → Option App
  | [] => some app
  | k :: ks =>
    match processEvent app k with
    | none => none
    | some a => applyEvents a ks

/-- The key sequence of the spec's round-trip scenario: enter buy mode, type
the item's short name, submit. -/
def buySequence (name : String) : List KeyEvent :=
  KeyEvent.Char 'b' :: (name.data.map KeyEvent.Char ++ [KeyEvent.Enter])

/-- States reachable by the economy operations named in the reachability
claim: `tick` (`App::update`), `AddResourceUnit` (`code_lines += 1.`) and
`buy_item`, from the freshly constructed `App`. -/
inductive ReachableEcon (items : List Item) : App → Prop
  | init : ReachableEcon items (App.new items)
  | tick {a a' : App} : ReachableEcon items a → App.update a = some a' →
      ReachableEcon items a'
  | addUnit {a : App} : ReachableEcon items a →
      ReachableEcon items { a with code_lines := a.code_lines + 1 }
  | buy {a : App} (s : String) : ReachableEcon items a →
      ReachableEcon items (buy_item a s).1

/-- Production rate looked up through the catalog index (0 when the id is
out of range; `tickFold` fails there anyway). -/
def cpsAt (items : List Item) (i : ℕ) : ℚ :=
  ((items.get? i).map Item.cps).getD 0

/-- The exact per-tick production: sum of `count * production_rate` over the
holdings. -/
def sumCps (items : List Item) : List (ℕ × ℕ) → ℚ
  | [] => 0
  | (id, c) :: rest => (c : ℚ) * cpsAt items id + sumCps items rest

/-- States reachable by the full driver loop: ticks and arbitrary key
events. -/
inductive Reachable (items : List Item) : App → Prop
  | init : Reachable items (App.new items)
  | tick {a a' : App} : Reachable items a → App.update a = some a' →
      Reachable items a'
  | event {a a' : App} (k : KeyEvent) : Reachable items a →
      processEvent a k = some a' → Reachable items a'

/-! ### Concrete fixtures for witnesses and counterexamples -/

/-- A free zero-rate item named "a". -/
def itemA : Item := { cps := 0, cost := 0, id := 0, name := "a", long_name := "A" }

/-- One-item catalog holding `itemA`. -/
def catalogA : List Item := [itemA]

/-- An item named "a" costing 100 with rate 1. -/
def itemB100 : Item := { cps := 1, cost := 100, id := 0, name := "a", long_name := "A" }

/-- Normal-mode state over the cost-100 catalog with balance `b`. -/
def app100 (b : ℚ) : App :=
  { input := "", input_mode := InputMode.Normal, owned_items := [], code_lines := b,
    items_index := [itemB100], error := none }

/-- Normal-mode state with a stale pending buffer "x". -/
def appC2 : App :=
  { input := "x", input_mode := InputMode.Normal, owned_items := [], code_lines := 5,
    items_index := catalogA, error := none }

/-- Normal-mode state with an empty pending buffer. -/
def appC2e : App := { appC2 with input := "" }

/-- Buy-mode state whose pending buffer is `"a 2"` (name plus quantity token). -/
def appC3 : App :=
  { input := "a 2", input_mode := InputMode.Buy, owned_items := [], code_lines := 5,
    items_index := catalogA, error := none }

/-- Fresh normal-mode state over `catalogA`. -/
def appC4 : App :=
  { input := "", input_mode := InputMode.Normal, owned_items := [], code_lines := 0,
    items_index := catalogA, error := none }

/-- Buy-mode state with buffer "a", an affordable item, and a stale error. -/
def appC5 : App :=
  { input := "a", input_mode := InputMode.Buy, owned_items := [], code_lines := 5,
    items_index := catalogA, error := some (ClidleError.BuyingItemNotKnown "z") }

/-- Producer item of rate 1. -/
def itemR1 : Item := { cps := 1, cost := 0, id := 0, name := "r1", long_name := "R1" }

/-- Producer item of rate 2. -/
def itemR2 : Item := { cps := 2, cost := 0, id := 1, name := "r2", long_name := "R2" }

/-- State owning two units of `itemR1` and three of `itemR2`. -/
def appTick : App :=
  { input := "", input_mode := InputMode.Normal, owned_items := [(0, 2), (1, 3)],
    code_lines := 0, items_index := [itemR1, itemR2], error := none }

/-! ### Helper lemmas -/

theorem findItemAux_eq_none {s : String} {items : List Item} (k : ℕ)
    (h : ∀ it ∈ items, it.name ≠ s) : findItemAux s k items = none := by
  induction items generalizing k with
  | nil => rfl
  | cons it rest ih =>
    have hne : it.name ≠ s := h it (List.mem_cons_self it rest)
    simp only [findItemAux, if_neg hne]
    exact ih (k + 1) fun x hx => h x (List.mem_cons_of_mem it hx)

theorem findItemAux_spec {s : String} {items : List Item} {k i : ℕ} {it : Item}
    (h : findItemAux s k items = some (i, it)) :
    it.name = s ∧ ∃ j, i = k + j ∧ items.get? j = some it := by
  induction items generalizing k with
  | nil => simp [findItemAux] at h
  | cons hd rest ih =>
    by_cases hn : hd.name = s
    · simp only [findItemAux, if_pos hn] at h
      obtain ⟨rfl, rfl⟩ : k = i ∧ hd = it := by simpa [Prod.ext_iff] using h
      exact ⟨hn, 0, by omega, by simp⟩
    · simp only [findItemAux, if_neg hn] at h
      obtain ⟨hname, j, hij, hget⟩ := ih h
      exact ⟨hname, j + 1, by omega, by simpa using hget⟩

theorem findItem_spec {s : String} {items : List Item} {i : ℕ} {it : Item}
    (h : findItem items s = some (i, it)) :
    it.name = s ∧ items.get? i = some it ∧ i < items.length := by
  obtain ⟨hname, j, hij, hget⟩ := findItemAux_spec h
  have hji : j = i := by omega
  subst hji
  refine ⟨hname, hget, ?_⟩
  by_contra hlen
  have hnone : items.get? j = none := List.get?_eq_none.mpr (by omega)
  rw [hnone] at hget
  exact absurd hget (by simp)

theorem findItem_eq_none {s : String} {items : List Item}
    (h : ∀ it ∈ items, it.name ≠ s) : findItem items s = none :=
  findItemAux_eq_none 0 h

theorem buy_item_of_none {app : App} {s : String}
    (h : findItem app.items_index s = none) :
    buy_item app s = (app, some (ClidleError.BuyingItemNotKnown s)) := by
  simp [buy_item, h]

theorem buy_item_of_found {app : App} {s : String} {id : ℕ} {it : Item}
    (h : findItem app.items_index s = some (id, it)) :
    buy_item app s =
      if it.cost < floorU64 app.code_lines then
        ({ app with
            code_lines := app.code_lines - (it.cost : ℚ)
            owned_items := addOwned app.owned_items id 1 }, none)
      else (app, none) := by
  simp [buy_item, h]

theorem countOf_map_add {l : List (ℕ × ℕ)} {k : ℕ} (v : ℕ)
    (h : l.any (fun p => p.1 = k) = true) :
    countOf (l.map (fun p => if p.1 = k then (p.1, p.2 + v) else p)) k
      = countOf l k + v := by
  induction l with
  | nil => simp at h
  | cons p t ih =>
    by_cases hp : p.1 = k
    · simp [countOf, hp]
    · have ht : t.any (fun p => p.1 = k) = true := by
        simpa [hp] using h
      simpa [countOf, hp] using ih ht

theorem countOf_eq_zero {l : List (ℕ × ℕ)} {k : ℕ}
    (h : l.any (fun p => p.1 = k) = false) : countOf l k = 0 := by
  induction l with
  | nil => rfl
  | cons p t ih =>
    simp only [List.any_cons, Bool.or_eq_false_iff] at h
    have hp : ¬ p.1 = k := by simpa using h.1
    simpa [countOf, hp] using ih h.2

theorem countOf_append_single {l : List (ℕ × ℕ)} {k : ℕ} (v : ℕ)
    (h : l.any (fun p => p.1 = k) = false) : countOf (l ++ [(k, v)]) k = v := by
  induction l with
  | nil => simp [countOf]
  | cons p t ih =>
    simp only [List.any_cons, Bool.or_eq_false_iff] at h
    have hp : ¬ p.1 = k := by simpa using h.1
    simpa [countOf, hp] using ih h.2

theorem countOf_addOwned (l : List (ℕ × ℕ)) (k v : ℕ) :
    countOf (addOwned l k v) k = countOf l k + v := by
  unfold addOwned
  by_cases h : l.any (fun p => p.1 = k) = true
  · rw [if_pos h]
    exact countOf_map_add v h
  · have hf : l.any (fun p => p.1 = k) = false := Bool.eq_false_iff.mpr h
    rw [if_neg h, countOf_append_single v hf, countOf_eq_zero hf]
    omega

theorem addOwned_mem_inv {l : List (ℕ × ℕ)} {n k v : ℕ} (hk : k < n) (hv : 1 ≤ v)
    (h : ∀ p ∈ l, p.1 < n ∧ 1 ≤ p.2) :
    ∀ p ∈ addOwned l k v, p.1 < n ∧ 1 ≤ p.2 := by
  intro p hp
  unfold addOwned at hp
  by_cases hc : l.any (fun p => p.1 = k) = true
  · rw [if_pos hc] at hp
    obtain ⟨q, hq, hfq⟩ := List.mem_map.mp hp
    by_cases hqk : q.1 = k
    · obtain ⟨h1, h2⟩ := h q hq
      simp only [if_pos hqk] at hfq
      subst hfq
      exact ⟨h1, by omega⟩
    · simp only [if_neg hqk] at hfq
      exact hfq ▸ h q hq
  · rw [if_neg hc] at hp
    rcases List.mem_append.mp hp with hmem | hmem
    · exact h p hmem
    · have : p = (k, v) := by simpa using hmem
      subst this
      exact ⟨hk, hv⟩

theorem cpsAt_eq {items : List Item} {i : ℕ} {it : Item}
    (h : items.get? i = some it) : cpsAt items i = it.cps := by
  simp only [cpsAt, h, Option.map_some', Option.getD_some]

theorem tickFold_eq {items : List Item} {l : List (ℕ × ℕ)} :
    ∀ {acc r : ℚ}, tickFold items acc l = some r → r = acc + sumCps items l := by
  induction l with
  | nil =>
    intro acc r h
    simp only [tickFold, Option.some.injEq] at h
    simp [sumCps, ← h]
  | cons p rest ih =>
    intro acc r h
    obtain ⟨id, c⟩ := p
    simp only [tickFold] at h
    cases hget : items.get? id with
    | none => rw [hget] at h; exact absurd h (by simp)
    | some it =>
      rw [hget] at h
      have := ih h
      rw [this, sumCps, cpsAt_eq hget]
      ring

theorem tickFold_isSome {items : List Item} {l : List (ℕ × ℕ)}
    (h : ∀ p ∈ l, p.1 < items.length) :
    ∀ acc : ℚ, (tickFold items acc l).isSome = true := by
  induction l with
  | nil => intro acc; rfl
  | cons p rest ih =>
    intro acc
    obtain ⟨id, c⟩ := p
    have hid : id < items.length := h (id, c) (List.mem_cons_self _ _)
    cases hget : items.get? id with
    | none =>
      rw [List.get?_eq_none] at hget
      omega
    | some it =>
      simp only [tickFold, hget]
      exact ih (fun q hq => h q (List.mem_cons_of_mem _ hq)) _

theorem sumCps_nonneg {items : List Item} (h : ∀ it ∈ items, 0 ≤ it.cps)
    (l : List (ℕ × ℕ)) : 0 ≤ sumCps items l := by
  induction l with
  | nil => simp [sumCps]
  | cons p rest ih =>
    obtain ⟨id, c⟩ := p
    have hterm : 0 ≤ (c : ℚ) * cpsAt items id := by
      apply mul_nonneg (by positivity)
      unfold cpsAt
      cases hget : items.get? id with
      | none => simp
      | some it => simpa using h it (List.get?_mem hget)
    simpa [sumCps] using add_nonneg hterm ih

theorem lt_floorU64 {c : ℕ} {q : ℚ} (h : c < floorU64 q) : (c : ℚ) + 1 ≤ q := by
  unfold floorU64 at h
  have h1 : (c : ℤ) < ⌊q⌋ := Int.lt_toNat.mp h
  have h2 : (c : ℤ) + 1 ≤ ⌊q⌋ := Int.add_one_le_iff.mpr h1
  have h3 : (((c : ℤ) + 1 : ℤ) : ℚ) ≤ q := Int.le_floor.mp h2
  push_cast at h3
  exact h3

theorem buy_item_frame (app : App) (s : String) :
    (buy_item app s).1.input = app.input ∧
    (buy_item app s).1.input_mode = app.input_mode ∧
    (buy_item app s).1.items_index = app.items_index ∧
    (buy_item app s).1.error = app.error := by
  unfold buy_item
  cases findItem app.items_index s with
  | none => exact ⟨rfl, rfl, rfl, rfl⟩
  | some p =>
    obtain ⟨id, it⟩ := p
    by_cases hc : it.cost < floorU64 app.code_lines <;>
      simp [mul_one, hc]

theorem handle_input_cases {a : App} {k : KeyEvent} {p : App × GameState}
    (h : handle_input a k = some p) :
    (p.1.owned_items = a.owned_items ∧ p.1.items_index = a.items_index ∧
      ∀ s, p.2 ≠ GameState.BuyItem s) ∨
    (a.input_mode = InputMode.Buy ∧ k = KeyEvent.Enter ∧
      p = ({ a with input := "" }, GameState.BuyItem a.input)) := by
  cases hm : a.input_mode <;> cases k <;>
    simp only [handle_input, hm] at h
  case Normal.Char c =>
    by_cases hb : c = 'b'
    · rw [if_pos hb, Option.some.injEq] at h
      subst h
      exact Or.inl ⟨rfl, rfl, fun s hs => GameState.noConfusion hs⟩
    rw [if_neg hb] at h
    by_cases hc : c = 'c'
    · rw [if_pos hc, Option.some.injEq] at h
      subst h
      exact Or.inl ⟨rfl, rfl, fun s hs => GameState.noConfusion hs⟩
    rw [if_neg hc] at h
    by_cases hs : c = 's'
    · rw [if_pos hs, Option.some.injEq] at h
      subst h
      exact Or.inl ⟨rfl, rfl, fun s hs => GameState.noConfusion hs⟩
    rw [if_neg hs] at h
    by_cases hq : c = 'q'
    · rw [if_pos hq, Option.some.injEq] at h
      subst h
      exact Or.inl ⟨rfl, rfl, fun s hs => GameState.noConfusion hs⟩
    rw [if_neg hq, Option.some.injEq] at h
    subst h
    exact Or.inl ⟨rfl, rfl, fun s hs => GameState.noConfusion hs⟩
  case Buy.Enter =>
    rw [Option.some.injEq] at h
    subst h
    exact Or.inr ⟨rfl, rfl, rfl⟩
  all_goals
    first
      | exact Option.noConfusion h
      | (rw [Option.some.injEq] at h; subst h;
         exact Or.inl ⟨rfl, rfl, fun s hs => GameState.noConfusion hs⟩)

theorem processEvent_enter_buy {a : App} (hm : a.input_mode = InputMode.Buy) :
    processEvent a KeyEvent.Enter =
      some { (buy_item { a with input := "" } a.input).1
              with error := (buy_item { a with input := "" } a.input).2 } := by
  simp [processEvent, handle_input, hm]

theorem processEvent_char_buy {a : App} (hm : a.input_mode = InputMode.Buy) (c : Char) :
    processEvent a (KeyEvent.Char c) = some { a with input := a.input.push c } := by
  simp [processEvent, handle_input, hm]

theorem processEvent_esc_buy {a : App} (hm : a.input_mode = InputMode.Buy) :
    processEvent a KeyEvent.Esc = some { a with input_mode := InputMode.Normal } := by
  simp [processEvent, handle_input, hm]

theorem processEvent_b_normal {a : App} (hm : a.input_mode = InputMode.Normal) :
    processEvent a (KeyEvent.Char 'b') = some { a with input_mode := InputMode.Buy } := by
  simp [processEvent, handle_input, hm]

theorem processEvent_s_normal {a : App} (hm : a.input_mode = InputMode.Normal) :
    processEvent a (KeyEvent.Char 's') = some { a with input_mode := InputMode.Sell } := by
  have h1 : ('s' : Char) ≠ 'b' := by decide
  have h2 : ('s' : Char) ≠ 'c' := by decide
  simp [processEvent, handle_input, hm, h1, h2]

theorem processEvent_cases {a a' : App} {k : KeyEvent} (h : processEvent a k = some a') :
    a'.items_index = a.items_index ∧
    (a'.owned_items = a.owned_items ∨
      ∃ id it, findItem a.items_index a.input = some (id, it) ∧
        a'.owned_items = addOwned a.owned_items id 1) := by
  unfold processEvent at h
  cases hh : handle_input a k with
  | none => rw [hh] at h; exact Option.noConfusion h
  | some p =>
    rw [hh] at h
    obtain ⟨a1, g⟩ := p
    rcases handle_input_cases hh with ⟨how, hit, hng⟩ | ⟨hm, hk, hp⟩
    · cases g with
      | BuyItem s => exact absurd rfl (hng s)
      | Noop =>
        rw [Option.some.injEq] at h
        subst h
        exact ⟨hit, Or.inl how⟩
      | Quit =>
        rw [Option.some.injEq] at h
        subst h
        exact ⟨hit, Or.inl how⟩
    · rw [Prod.mk.injEq] at hp
      obtain ⟨rfl, rfl⟩ := hp
      replace h : some { (buy_item { a with input := "" } a.input).1
          with error := (buy_item { a with input := "" } a.input).2 } = some a' := h
      rw [Option.some.injEq] at h
      subst h
      cases hf : findItem a.items_index a.input with
      | none =>
        have hf' : findItem ({ a with input := "" } : App).items_index a.input = none := hf
        rw [buy_item_of_none hf']
        exact ⟨rfl, Or.inl rfl⟩
      | some q =>
        obtain ⟨id, it⟩ := q
        have hf' : findItem ({ a with input := "" } : App).items_index a.input
            = some (id, it) := hf
        rw [buy_item_of_found hf']
        by_cases hcost : it.cost < floorU64 ({ a with input := "" } : App).code_lines
        · rw [if_pos hcost]
          exact ⟨rfl, Or.inr ⟨id, it, rfl, rfl⟩⟩
        · rw [if_neg hcost]
          exact ⟨rfl, Or.inl rfl⟩

theorem applyEvents_chars {l : List Char} : ∀ {a : App},
    a.input_mode = InputMode.Buy →
    applyEvents a (l.map KeyEvent.Char)
      = some { a with input := String.mk (a.input.data ++ l) } := by
  induction l with
  | nil =>
    intro a hm
    show some a = _
    rw [List.append_nil]
  | cons c cs ih =>
    intro a hm
    show applyEvents a (KeyEvent.Char c :: cs.map KeyEvent.Char) = _
    rw [applyEvents, processEvent_char_buy hm c]
    show applyEvents { a with input := a.input.push c } (cs.map KeyEvent.Char) = _
    rw [ih (show ({ a with input := a.input.push c } : App).input_mode
          = InputMode.Buy from hm)]
    simp only [String.data_push, List.append_assoc, List.singleton_append]

theorem floorU64_100 : floorU64 (100 : ℚ) = 100 := by decide

theorem floorU64_201half : floorU64 (201/2 : ℚ) = 100 := by
  unfold floorU64
  rw [show ⌊(201/2 : ℚ)⌋ = 100 by norm_num]
  decide

theorem floorU64_203half : floorU64 (203/2 : ℚ) = 101 := by
  unfold floorU64
  rw [show ⌊(203/2 : ℚ)⌋ = 101 by norm_num]
  decide

theorem findItem_app100 (b : ℚ) :
    findItem (app100 b).items_index "a" = some (0, itemB100) := rfl

theorem buy_app100_100 : buy_item (app100 100) "a" = (app100 100, none) := by
  rw [buy_item_of_found (findItem_app100 100), if_neg]
  rw [show (app100 100).code_lines = (100 : ℚ) from rfl, floorU64_100]
  show ¬ (100 < 100)
  omega

theorem buy_app100_201half :
    buy_item (app100 (201/2)) "a" = (app100 (201/2), none) := by
  rw [buy_item_of_found (findItem_app100 (201/2)), if_neg]
  rw [show (app100 (201/2)).code_lines = (201/2 : ℚ) from rfl, floorU64_201half]
  show ¬ (100 < 100)
  omega

theorem buy_app100_203half :
    buy_item (app100 (203/2)) "a"
      = ({ app100 (203/2) with
            code_lines := (203/2 : ℚ) - (100 : ℕ)
            owned_items := [(0, 1)] }, none) := by
  have hc : itemB100.cost < floorU64 (app100 (203/2)).code_lines := by
    rw [show (app100 (203/2)).code_lines = (203/2 : ℚ) from rfl, floorU64_203half]
    show (100 : ℕ) < 101
    omega
  rw [buy_item_of_found (findItem_app100 (203/2)), if_pos hc]
  rfl

/-! ### Claim theorems -/

/-- C1 (counterexample): the spec's affordability-boundary example is wrong
for `balance = 100.5`.  With the cost-100 item, `buy` at balance `201/2` is a
no-op (`100 < ⌊100.5⌋ = 100` fails), so the state is unchanged; in particular
the balance is not `0.5` and the holdings are not incremented. -/
theorem c1_boundary_counterexample :
    buy_item (app100 (201/2)) "a" = (app100 (201/2), none) ∧
    ¬ ((buy_item (app100 (201/2)) "a").1.code_lines = 1/2 ∧
        countOf (buy_item (app100 (201/2)) "a").1.owned_items 0 = 1) := by
  refine ⟨buy_app100_201half, ?_⟩
  rw [buy_app100_201half]
  rintro ⟨h1, -⟩
  rw [show (app100 (201/2), (none : Option ClidleError)).1.code_lines
        = (201/2 : ℚ) from rfl] at h1
  norm_num at h1

/-- C1 (amended): `buy(item, 1)` is approved exactly when
`total_cost < floor(balance)` (strict).  With an item of cost 100, `buy` at
balance `100.0` is a no-op, `buy` at balance `100.5` is ALSO a no-op
(`⌊100.5⌋ = 100` is not `> 100`), and `buy` at balance `101.5` succeeds,
incrementing the holdings and leaving balance `1.5`. -/
theorem c1_affordability_amended (app : App) (s : String) (id : ℕ) (it : Item)
    (hf : findItem app.items_index s = some (id, it)) :
    (it.cost * 1 < floorU64 app.code_lines →
      (buy_item app s).1.code_lines = app.code_lines - (it.cost : ℚ) ∧
      countOf (buy_item app s).1.owned_items id = countOf app.owned_items id + 1 ∧
      (buy_item app s).2 = none) ∧
    (¬ it.cost * 1 < floorU64 app.code_lines → buy_item app s = (app, none)) ∧
    buy_item (app100 100) "a" = (app100 100, none) ∧
    buy_item (app100 (201/2)) "a" = (app100 (201/2), none) ∧
    (buy_item (app100 (203/2)) "a").1.code_lines = 3/2 ∧
    countOf (buy_item (app100 (203/2)) "a").1.owned_items 0 = 1 := by
  refine ⟨?_, ?_, buy_app100_100, buy_app100_201half, ?_, ?_⟩
  · intro hc
    rw [mul_one] at hc
    rw [buy_item_of_found hf, if_pos hc]
    exact ⟨rfl, countOf_addOwned app.owned_items id 1, rfl⟩
  · intro hc
    rw [mul_one] at hc
    rw [buy_item_of_found hf, if_neg hc]
  · rw [buy_app100_203half]
    push_cast
    norm_num
  · rw [buy_app100_203half]
    decide

/-- C1 (witness): the amended theorem applied to the concrete cost-100
catalog at balance 100. -/
theorem c1_affordability_amended_witness :
    buy_item (app100 100) "a" = (app100 100, none) :=
  (c1_affordability_amended (app100 100) "a" 0 itemB100 (findItem_app100 100)).2.2.1

/-- C6: buying an item name that matches no catalog entry returns the
`BuyingItemNotKnown` (UnknownItem) error and leaves the whole `App` state
unchanged. -/
theorem c6_unknown_item (app : App) (s : String)
    (h : ∀ it ∈ app.items_index, it.name ≠ s) :
    buy_item app s = (app, some (ClidleError.BuyingItemNotKnown s)) :=
  buy_item_of_none (findItem_eq_none h)

/-- C6 (witness): buying "nonexistent" over the one-item catalog. -/
theorem c6_unknown_item_witness :
    buy_item (app100 5) "nonexistent"
      = (app100 5, some (ClidleError.BuyingItemNotKnown "nonexistent")) :=
  c6_unknown_item (app100 5) "nonexistent" (by decide)

/-- C7: when the resolved item fails the affordability check, `buy_item`
returns `Ok(())` (no error) and changes no state at all. -/
theorem c7_insufficient_funds_noop (app : App) (s : String) (id : ℕ) (it : Item)
    (hf : findItem app.items_index s = some (id, it))
    (hc : ¬ it.cost * 1 < floorU64 app.code_lines) :
    buy_item app s = (app, none) := by
  rw [mul_one] at hc
  rw [buy_item_of_found hf, if_neg hc]

/-- C7 (witness): the cost-100 item at balance exactly 100 is unaffordable
and the call is a silent no-op. -/
theorem c7_insufficient_funds_noop_witness :
    buy_item (app100 100) "a" = (app100 100, none) :=
  c7_insufficient_funds_noop (app100 100) "a" 0 itemB100 (findItem_app100 100)
    (by
      rw [show (app100 100).code_lines = (100 : ℚ) from rfl, floorU64_100]
      show ¬ (100 * 1 < 100)
      omega)

theorem update_code_lines {b b' : App} (hb : App.update b = some b') :
    b'.code_lines = b.code_lines + sumCps b.items_index b.owned_items := by
  unfold App.update at hb
  obtain ⟨cl, hcl, hcl2⟩ := Option.map_eq_some'.mp hb
  rw [← hcl2]
  exact tickFold_eq hcl

/-- C8: one `tick()` (`App::update`) adds exactly the sum of
`count * production_rate` over the holdings.  For the two-item holdings
`[(id1, c1), (id2, c2)]` with rates `it1.cps` and `it2.cps` the new balance is
exactly `balance + (c1*r1 + c2*r2)`; in general the new balance is the old one
plus `sumCps`; and with non-negative rates a tick never decreases the
balance. -/
theorem c8_tick_production (app : App) (id1 id2 c1 c2 : ℕ) (it1 it2 : Item)
    (hown : app.owned_items = [(id1, c1), (id2, c2)])
    (h1 : app.items_index.get? id1 = some it1)
    (h2 : app.items_index.get? id2 = some it2) :
    App.update app = some { app with
        code_lines := app.code_lines + ((c1 : ℚ) * it1.cps + (c2 : ℚ) * it2.cps) } ∧
    (∀ b b' : App, App.update b = some b' →
      b'.code_lines = b.code_lines + sumCps b.items_index b.owned_items) ∧
    (∀ b b' : App, (∀ it ∈ b.items_index, 0 ≤ it.cps) → App.update b = some b' →
      b.code_lines ≤ b'.code_lines) := by
  refine ⟨?_, fun b b' hb => update_code_lines hb, ?_⟩
  · unfold App.update
    rw [hown]
    simp only [tickFold, h1, h2, Option.map_some']
    have harr : app.code_lines + (c1 : ℚ) * it1.cps + (c2 : ℚ) * it2.cps
        = app.code_lines + ((c1 : ℚ) * it1.cps + (c2 : ℚ) * it2.cps) := by ring
    rw [harr]
  · intro b b' hnn hb
    rw [update_code_lines hb]
    have := sumCps_nonneg hnn b.owned_items
    linarith

/-- C8 (witness): ticking the concrete two-holding state adds
`2*1 + 3*2`. -/
theorem c8_tick_production_witness :
    App.update appTick
      = some { appTick with code_lines := (0 : ℚ) + ((2 : ℚ) * 1 + (3 : ℚ) * 2) } :=
  (c8_tick_production appTick 0 1 2 3 itemR1 itemR2 rfl rfl rfl).1

theorem reachableEcon_items_index {items : List Item} {a : App}
    (h : ReachableEcon items a) : a.items_index = setIdsFrom 0 items := by
  induction h with
  | init => rfl
  | tick h1 hup ih =>
    obtain ⟨cl, _, hcl2⟩ := Option.map_eq_some'.mp hup
    rw [← hcl2]
    exact ih
  | addUnit h1 ih => exact ih
  | buy s h1 ih => exact (buy_item_frame _ s).2.2.1.trans ih

theorem setIdsFrom_cps {l : List Item} : ∀ {k : ℕ} {it : Item},
    it ∈ setIdsFrom k l → ∃ it0, it0 ∈ l ∧ it.cps = it0.cps := by
  induction l with
  | nil =>
    intro k it h
    simp [setIdsFrom] at h
  | cons hd tl ih =>
    intro k it h
    rw [setIdsFrom] at h
    rcases List.mem_cons.mp h with rfl | h
    · exact ⟨hd, List.mem_cons_self _ _, rfl⟩
    · obtain ⟨it0, h0, hcps⟩ := ih h
      exact ⟨it0, List.mem_cons_of_mem _ h0, hcps⟩

theorem buy_pos {b : App} {s : String} {id : ℕ} {it : Item}
    (hf : findItem b.items_index s = some (id, it))
    (hc : it.cost * 1 < floorU64 b.code_lines) :
    0 < (buy_item b s).1.code_lines := by
  rw [mul_one] at hc
  rw [buy_item_of_found hf, if_pos hc]
  show 0 < b.code_lines - (it.cost : ℚ)
  have := lt_floorU64 hc
  linarith

/-- C9: assuming all catalog production rates are non-negative, every state
reachable from the fresh `App` by ticks, `AddResourceUnit` increments and
buys has a non-negative balance; moreover any approved purchase (one passing
the strict floor check) leaves a strictly positive balance. -/
theorem c9_balance_nonneg (items : List Item) (h : ∀ it ∈ items, 0 ≤ it.cps)
    (a : App) (ha : ReachableEcon items a) :
    0 ≤ a.code_lines ∧
    ∀ (b : App) (s : String) (id : ℕ) (it : Item),
      findItem b.items_index s = some (id, it) →
      it.cost * 1 < floorU64 b.code_lines →
      0 < (buy_item b s).1.code_lines := by
  refine ⟨?_, fun b s id it hf hc => buy_pos hf hc⟩
  induction ha with
  | init => exact le_refl 0
  | @tick a a' h1 hup ih =>
    have hsum := update_code_lines hup
    have hidx := reachableEcon_items_index h1
    have hnn : ∀ it ∈ a.items_index, 0 ≤ it.cps := by
      rw [hidx]
      intro it hit
      obtain ⟨it0, h0, hcps⟩ := setIdsFrom_cps hit
      rw [hcps]
      exact h it0 h0
    have hpos := sumCps_nonneg hnn a.owned_items
    rw [hsum]
    linarith
  | @addUnit a h1 ih =>
    show 0 ≤ a.code_lines + 1
    linarith
  | @buy a s h1 ih =>
    cases hf : findItem a.items_index s with
    | none =>
      rw [buy_item_of_none hf]
      exact ih
    | some q =>
      obtain ⟨id, it⟩ := q
      rw [buy_item_of_found hf]
      by_cases hc : it.cost < floorU64 a.code_lines
      · rw [if_pos hc]
        show 0 ≤ a.code_lines - (it.cost : ℚ)
        have := lt_floorU64 hc
        linarith
      · rw [if_neg hc]
        exact ih

/-- C9 (witness): the invariant at the initial state over the concrete
catalog. -/
theorem c9_balance_nonneg_witness : 0 ≤ (App.new catalogA).code_lines :=
  (c9_balance_nonneg catalogA (by decide) (App.new catalogA) ReachableEcon.init).1

/-- C10: in every state reachable by the driver loop, every holdings key is a
valid catalog index and every stored count is at least 1; consequently every
catalog lookup inside `tick()` succeeds (`App.update` never hits the `unwrap`
panic, i.e. is always `some`). -/
theorem c10_holdings_valid (items : List Item) (a : App) (ha : Reachable items a) :
    (∀ p ∈ a.owned_items, p.1 < a.items_index.length ∧ 1 ≤ p.2) ∧
    (App.update a).isSome = true := by
  have main : ∀ p ∈ a.owned_items, p.1 < a.items_index.length ∧ 1 ≤ p.2 := by
    induction ha with
    | init =>
      intro p hp
      simp [App.new] at hp
    | @tick a a' h1 hup ih =>
      obtain ⟨cl, _, hcl2⟩ := Option.map_eq_some'.mp hup
      rw [← hcl2]
      exact ih
    | @event a a' k h1 hpe ih =>
      obtain ⟨hidx, hor⟩ := processEvent_cases hpe
      rw [hidx]
      rcases hor with heq | ⟨id, it, hf, hadd⟩
      · rw [heq]
        exact ih
      · rw [hadd]
        exact addOwned_mem_inv (findItem_spec hf).2.2 (le_refl 1) ih
  refine ⟨main, ?_⟩
  unfold App.update
  rw [Option.isSome_map']
  exact tickFold_isSome (fun p hp => (main p hp).1) a.code_lines

/-- C10 (witness): the tick lookup succeeds at the initial state over the
concrete catalog. -/
theorem c10_holdings_valid_witness : (App.update (App.new catalogA)).isSome = true :=
  (c10_holdings_valid catalogA (App.new catalogA) Reachable.init).2

theorem applyEvents_cons_some {a a1 : App} {k : KeyEvent} {ks : List KeyEvent}
    (h : processEvent a k = some a1) :
    applyEvents a (k :: ks) = applyEvents a1 ks := by
  simp [applyEvents, h]

theorem applyEvents_append {l1 l2 : List KeyEvent} : ∀ {a : App},
    applyEvents a (l1 ++ l2)
      = (applyEvents a l1).bind (fun a1 => applyEvents a1 l2) := by
  induction l1 with
  | nil => intro a; rfl
  | cons k ks ih =>
    intro a
    cases hp : processEvent a k with
    | none => simp [applyEvents, hp]
    | some a1 => simp [applyEvents, hp, ih]

theorem applyEvents_chars_empty {l : List Char} {a : App}
    (hm : a.input_mode = InputMode.Buy) (hi : a.input = "") :
    applyEvents a (l.map KeyEvent.Char) = some { a with input := String.mk l } := by
  rw [applyEvents_chars hm, hi]
  rfl

theorem submit_buys {app : App} {id : ℕ} {it : Item}
    (hmode : app.input_mode = InputMode.Buy)
    (hf : findItem app.items_index app.input = some (id, it))
    (hc : it.cost < floorU64 app.code_lines) :
    processEvent app KeyEvent.Enter =
      some { app with
              input := ""
              code_lines := app.code_lines - (it.cost : ℚ)
              owned_items := addOwned app.owned_items id 1
              error := none } := by
  rw [processEvent_enter_buy hmode,
    buy_item_of_found
      (show findItem ({ app with input := "" } : App).items_index app.input
        = some (id, it) from hf),
    if_pos
      (show it.cost < floorU64 ({ app with input := "" } : App).code_lines from hc)]

/-- C2 (counterexample): from the Normal-mode state `appC2` (stale pending
buffer "x", item "a" affordable), applying EnterBuyMode, AppendChar 'a',
Submit ends in `Buy` mode (not `Normal`), with holdings NOT incremented and an
`UnknownItem "xa"` error set — against the claimed round-trip outcome. -/
theorem c2_roundtrip_counterexample :
    (applyEvents appC2 (buySequence "a")).map
        (fun a => (a.input_mode, a.input, countOf a.owned_items 0, a.error)) =
      some (InputMode.Buy, "", 0, some (ClidleError.BuyingItemNotKnown "xa")) := by
  decide

/-- C2 (amended): from any Normal-mode state whose pending buffer is EMPTY,
typing an affordable item's short name after EnterBuyMode and submitting buys
one unit: afterwards the mode is still `Buying` (the source never returns to
Normal on Submit), the buffer is empty, the item's holdings count is
incremented by 1, and no error is set. -/
theorem c2_roundtrip_amended (app : App) (name : String) (id : ℕ) (it : Item)
    (hmode : app.input_mode = InputMode.Normal)
    (hinput : app.input = "")
    (hf : findItem app.items_index name = some (id, it))
    (haff : it.cost * 1 < floorU64 app.code_lines) :
    (applyEvents app (buySequence name)).map
        (fun a => (a.input_mode, a.input, countOf a.owned_items id, a.error)) =
      some (InputMode.Buy, "", countOf app.owned_items id + 1, none) := by
  rw [mul_one] at haff
  have e1 : applyEvents app (buySequence name)
      = applyEvents { app with input_mode := InputMode.Buy }
          (name.data.map KeyEvent.Char ++ [KeyEvent.Enter]) :=
    applyEvents_cons_some (processEvent_b_normal hmode)
  have e2 : applyEvents { app with input_mode := InputMode.Buy }
        (name.data.map KeyEvent.Char ++ [KeyEvent.Enter])
      = (applyEvents { app with input_mode := InputMode.Buy }
          (name.data.map KeyEvent.Char)).bind
            (fun a1 => applyEvents a1 [KeyEvent.Enter]) :=
    applyEvents_append
  have e3 : applyEvents { app with input_mode := InputMode.Buy }
        (name.data.map KeyEvent.Char)
      = some { app with input_mode := InputMode.Buy, input := String.mk name.data } :=
    applyEvents_chars_empty rfl hinput
  have e4 : processEvent
        { app with input_mode := InputMode.Buy, input := String.mk name.data }
        KeyEvent.Enter
      = some { app with
                input_mode := InputMode.Buy
                input := ""
                code_lines := app.code_lines - (it.cost : ℚ)
                owned_items := addOwned app.owned_items id 1
                error := none } :=
    submit_buys rfl hf haff
  rw [e1, e2, e3, Option.some_bind, applyEvents_cons_some e4]
  simp only [applyEvents, Option.map_some', Option.some.injEq, Prod.mk.injEq]
  exact ⟨trivial, trivial, countOf_addOwned app.owned_items id 1, trivial⟩

/-- C2 (witness): the amended round-trip at the concrete empty-buffer state
`appC2e` with the affordable item "a". -/
theorem c2_roundtrip_amended_witness :
    (applyEvents appC2e (buySequence "a")).map
        (fun a => (a.input_mode, a.input, countOf a.owned_items 0, a.error)) =
      some (InputMode.Buy, "", countOf appC2e.owned_items 0 + 1, none) :=
  c2_roundtrip_amended appC2e "a" 0 itemA rfl rfl rfl
    (by
      rw [show (appC2e : App).code_lines = (5 : ℚ) from rfl]
      show 0 * 1 < floorU64 (5 : ℚ)
      decide)

/-- C3 (counterexample): submitting the buffer `"a 2"` does NOT buy item "a"
with quantity 2; the whole buffer is looked up as an item name, yielding
`UnknownItem "a 2"` and unchanged holdings. -/
theorem c3_parsing_counterexample :
    (processEvent appC3 KeyEvent.Enter).map
        (fun a => (countOf a.owned_items 0, a.error)) =
      some (0, some (ClidleError.BuyingItemNotKnown "a 2")) := by
  decide

/-- C3 (amended): on Submit the pending buffer is NOT split on whitespace:
the entire buffer is used as the item short name and the quantity is always
1.  If no catalog name equals the whole buffer (in particular for an empty
buffer over a catalog without an empty name) the result is
`UnknownItem(buffer)`; if the whole buffer resolves and is affordable exactly
one unit is bought; otherwise nothing changes but the drained buffer. -/
theorem c3_submit_amended (app : App) (hmode : app.input_mode = InputMode.Buy) :
    ((∀ it ∈ app.items_index, it.name ≠ app.input) →
      processEvent app KeyEvent.Enter =
        some { app with
                input := ""
                error := some (ClidleError.BuyingItemNotKnown app.input) }) ∧
    (∀ id it, findItem app.items_index app.input = some (id, it) →
      it.cost * 1 < floorU64 app.code_lines →
      processEvent app KeyEvent.Enter =
        some { app with
                input := ""
                code_lines := app.code_lines - (it.cost : ℚ)
                owned_items := addOwned app.owned_items id 1
                error := none }) ∧
    (∀ id it, findItem app.items_index app.input = some (id, it) →
      ¬ it.cost * 1 < floorU64 app.code_lines →
      processEvent app KeyEvent.Enter = some { app with input := "", error := none }) := by
  refine ⟨?_, ?_, ?_⟩
  · intro hun
    rw [processEvent_enter_buy hmode,
      buy_item_of_none
        (show findItem ({ app with input := "" } : App).items_index app.input = none
          from findItem_eq_none hun)]
  · intro id it hf hc
    rw [mul_one] at hc
    rw [processEvent_enter_buy hmode,
      buy_item_of_found
        (show findItem ({ app with input := "" } : App).items_index app.input
          = some (id, it) from hf),
      if_pos
        (show it.cost < floorU64 ({ app with input := "" } : App).code_lines from hc)]
  · intro id it hf hc
    rw [mul_one] at hc
    rw [processEvent_enter_buy hmode,
      buy_item_of_found
        (show findItem ({ app with input := "" } : App).items_index app.input
          = some (id, it) from hf),
      if_neg
        (show ¬ it.cost < floorU64 ({ app with input := "" } : App).code_lines from hc)]

/-- C3 (witness): the amended Submit behavior at the concrete buffer
`"a 2"`. -/
theorem c3_submit_amended_witness :
    processEvent appC3 KeyEvent.Enter =
      some { appC3 with
              input := ""
              error := some (ClidleError.BuyingItemNotKnown "a 2") } :=
  (c3_submit_amended appC3 rfl).1 (by decide)

/-- C4 (counterexample): the pending buffer is NOT cleared on Cancel nor on
re-entering buy mode: after EnterBuyMode, AppendChar 'x', Cancel, the state is
Normal with buffer "x"; a further EnterBuyMode gives Buy mode still holding
the stale buffer "x". -/
theorem c4_buffer_counterexample :
    (applyEvents appC4 [KeyEvent.Char 'b', KeyEvent.Char 'x', KeyEvent.Esc]).map
        (fun a => (a.input_mode, a.input)) = some (InputMode.Normal, "x") ∧
    (applyEvents appC4
        [KeyEvent.Char 'b', KeyEvent.Char 'x', KeyEvent.Esc, KeyEvent.Char 'b']).map
        (fun a => (a.input_mode, a.input)) = some (InputMode.Buy, "x") := by
  exact ⟨by decide, by decide⟩

/-- C4 (amended): EnterBuyMode, EnterSellMode and Cancel change ONLY the
input mode: the pending buffer is left untouched (it is emptied only by
Submit's drain), and in particular Cancel from Buying returns to Normal
without changing balance, holdings, buffer or error. -/
theorem c4_mode_transitions_amended (app : App) :
    (app.input_mode = InputMode.Normal →
      processEvent app (KeyEvent.Char 'b')
        = some { app with input_mode := InputMode.Buy }) ∧
    (app.input_mode = InputMode.Normal →
      processEvent app (KeyEvent.Char 's')
        = some { app with input_mode := InputMode.Sell }) ∧
    (app.input_mode = InputMode.Buy →
      processEvent app KeyEvent.Esc
        = some { app with input_mode := InputMode.Normal }) :=
  ⟨fun h => processEvent_b_normal h, fun h => processEvent_s_normal h,
    fun h => processEvent_esc_buy h⟩

/-- C4 (witness): entering buy mode from the concrete fresh state changes
only the mode. -/
theorem c4_mode_transitions_amended_witness :
    processEvent appC4 (KeyEvent.Char 'b')
      = some { appC4 with input_mode := InputMode.Buy } :=
  (c4_mode_transitions_amended appC4).1 rfl

/-- C5 (counterexample): a Submit whose buy succeeds does NOT leave
`last_error` unchanged: starting from `appC5` whose error field holds
`UnknownItem "z"`, submitting the affordable buffer "a" buys one unit and
resets the error field to no-error. -/
theorem c5_error_counterexample :
    appC5.error = some (ClidleError.BuyingItemNotKnown "z") ∧
    (processEvent appC5 KeyEvent.Enter).map
        (fun a => (a.error, countOf a.owned_items 0)) = some (none, 1) := by
  exact ⟨rfl, by decide⟩

/-- C5 (amended): on EVERY Submit the engine overwrites the error field with
the outcome of the buy — it is set on failure and reset to no-error on
success (the engine does auto-clear it on a successful Submit). -/
theorem c5_submit_error_amended (app : App) (hmode : app.input_mode = InputMode.Buy) :
    (processEvent app KeyEvent.Enter).map App.error =
      some (buy_item { app with input := "" } app.input).2 := by
  rw [processEvent_enter_buy hmode]
  rfl

/-- C5 (witness): the amended Submit error behavior at the concrete state
`appC5`. -/
theorem c5_submit_error_amended_witness :
    (processEvent appC5 KeyEvent.Enter).map App.error =
      some (buy_item { appC5 with input := "" } appC5.input).2 :=
  c5_submit_error_amended appC5 rfl

end Clidle
